import Mathlib

/-!
# Heyanon platform — verification of the signal and ledger engines

A shallow embedding of the Heyanon platform core: the ledger reconciliation
engine (position replay and FIFO roundtrip pairing), the zone classifier,
the score blender, the signal cache regime machine, and the frontend
API-base / response-shape normalization helpers.

The indicator/signal/ledger engines are described by the repository's
specification and API contract documents; their implementation files are
not part of the published tree, so those components are modelled from the
specification text (each such definition says so in its doc comment).
The frontend helpers (`resolveApiBase`, list-response normalization) are
translated from the TypeScript sources under `web/`.

Prices, quantities and timestamps are modelled as rationals; scores as
integers.
-/

namespace Heyanon

/-- Side of a derived position: `FLAT`, `LONG` or `SHORT`. -/
inductive Side where
  | flat
  | long
  | short
deriving DecidableEq, Repr

/-- Side of a trade-fill event: `OPEN_LONG`, `CLOSE_LONG`, `OPEN_SHORT`,
`CLOSE_SHORT`. -/
inductive TradeSide where
  | openLong
  | closeLong
  | openShort
  | closeShort
deriving DecidableEq, Repr

/-- A trade-fill event of the append-only ledger:
`{ts, side, symbol, fill_px, qty, order_id, status}` (data model demands
`qty > 0`; that constraint appears as a hypothesis of the theorems). -/
structure TradeEvent where
  ts : ℚ
  side : TradeSide
  symbol : String
  fill_px : ℚ
  qty : ℚ
  order_id : String
  status : String
deriving DecidableEq, Repr

/-- Modelled from the spec: replay state of `PositionReconciler`
(implementation not in the published tree; §4.6 of the spec). `side`,
`qty`, `avg_entry` describe the derived position; `flags` counts
`ReconciliationInconsistency` events (invalid event skipped, or a close
shortfall clamped at zero). -/
structure ReconState where
  side : Side
  qty : ℚ
  avg_entry : ℚ
  flags : ℕ
deriving DecidableEq, Repr

/-- Initial reconciliation state: `FLAT`, zero quantity. -/
def initRecon : ReconState := ⟨Side.flat, 0, 0, 0⟩

/-- Modelled from the spec: flagging a `ReconciliationInconsistency` —
the event is skipped, the flag counter increments, replay continues
(fail-soft; §4.6). -/
def flagEvent (s : ReconState) : ReconState :=
  { s with flags := s.flags + 1 }

/-- Modelled from the spec: one step of the `PositionReconciler` state
machine (§4.6; implementation not in the published tree).
`OPEN_LONG` is valid from `FLAT` or `LONG` (weighted-average entry);
`CLOSE_LONG` is valid from `LONG` only, with the quantity clamped at 0 —
a shortfall is a flagged inconsistency — and `qty = 0` returns the state
to `FLAT` with `avg_entry` reset. `SHORT` rules are symmetric. Any event
invalid for the current state is skipped and flagged. -/
def reconStep (s : ReconState) (e : TradeEvent) : ReconState :=
  match e.side with
  | TradeSide.openLong =>
    match s.side with
    | Side.flat => { s with side := Side.long, qty := e.qty, avg_entry := e.fill_px }
    | Side.long =>
        { s with qty := s.qty + e.qty,
                 avg_entry := (s.avg_entry * s.qty + e.fill_px * e.qty) / (s.qty + e.qty) }
    | Side.short => flagEvent s
  | TradeSide.closeLong =>
    match s.side with
    | Side.long =>
        if e.qty < s.qty then { s with qty := s.qty - e.qty }
        else if e.qty = s.qty then { s with side := Side.flat, qty := 0, avg_entry := 0 }
        else { s with side := Side.flat, qty := 0, avg_entry := 0, flags := s.flags + 1 }
    | _ => flagEvent s
  | TradeSide.openShort =>
    match s.side with
    | Side.flat => { s with side := Side.short, qty := e.qty, avg_entry := e.fill_px }
    | Side.short =>
        { s with qty := s.qty + e.qty,
                 avg_entry := (s.avg_entry * s.qty + e.fill_px * e.qty) / (s.qty + e.qty) }
    | Side.long => flagEvent s
  | TradeSide.closeShort =>
    match s.side with
    | Side.short =>
        if e.qty < s.qty then { s with qty := s.qty - e.qty }
        else if e.qty = s.qty then { s with side := Side.flat, qty := 0, avg_entry := 0 }
        else { s with side := Side.flat, qty := 0, avg_entry := 0, flags := s.flags + 1 }
    | _ => flagEvent s

/-- Replay a single-symbol event stream from a given reconciliation state. -/
def reconReplayFrom (s : ReconState) (l : List TradeEvent) : ReconState :=
  l.foldl reconStep s

/-- Modelled from the spec: `PositionReconciler` replays the ledger events
of one symbol, in ledger order, starting from `FLAT` (§4.6; implementation
not in the published tree). -/
def positionReplay (sym : String) (ledger : List TradeEvent) : ReconState :=
  reconReplayFrom initRecon (ledger.filter (fun e => e.symbol == sym))

/-- Modelled from the spec: unrealized PnL of the derived position against an external mark price (§4.6):
`LONG → (mark − avg_entry)·qty`, `SHORT → (avg_entry − mark)·qty`,
`FLAT → 0`. -/
def unrealizedPnl (s : ReconState) (mark : ℚ) : ℚ :=
  match s.side with
  | Side.long => (mark - s.avg_entry) * s.qty
  | Side.short => (s.avg_entry - mark) * s.qty
  | Side.flat => 0

/-- An open lot of the FIFO queue: `{entry_ts, entry_px, remaining_qty}`. -/
structure Lot where
  entry_ts : ℚ
  entry_px : ℚ
  remaining_qty : ℚ
deriving DecidableEq, Repr

/-- A closed entry/exit pair:
`{entry_ts, exit_ts, side, entry_px, exit_px, qty, pnl_quote, hold_hours}`. -/
structure Roundtrip where
  entry_ts : ℚ
  exit_ts : ℚ
  side : Side
  entry_px : ℚ
  exit_px : ℚ
  qty : ℚ
  pnl_quote : ℚ
  hold_hours : ℚ
deriving DecidableEq, Repr

/-- Modelled from the spec: the roundtrip for a consumed portion of a lot:
`pnl_quote = (exit_px − entry_px)·qty` for `LONG` pairings,
`(entry_px − exit_px)·qty` for `SHORT`; `hold_hours` is the holding time
in hours (timestamps are in seconds). -/
def mkRoundtrip (sd : Side) (lot : Lot) (q exit_ts exit_px : ℚ) : Roundtrip :=
  { entry_ts := lot.entry_ts
    exit_ts := exit_ts
    side := sd
    entry_px := lot.entry_px
    exit_px := exit_px
    qty := q
    pnl_quote := if sd = Side.long then (exit_px - lot.entry_px) * q
                 else (lot.entry_px - exit_px) * q
    hold_hours := (exit_ts - lot.entry_ts) / 3600 }

/-- Modelled from the spec: a CLOSE consumes open lots oldest-first (§4.7;
implementation not in the published tree). If the close quantity is smaller
than the oldest lot's remaining quantity the lot is split — partial
consumption, remainder stays queued — and one `Roundtrip` is emitted per
consumed portion; a fully consumed lot is popped and consumption continues
on the next lot. Close quantity left over when the queue is empty is
dropped. -/
def consumeLots (sd : Side) (exit_ts exit_px : ℚ) : List Lot → ℚ → List Lot × List Roundtrip
  | [], _ => ([], [])
  | lot :: rest, c =>
    if c ≤ 0 then (lot :: rest, [])
    else if c < lot.remaining_qty then
      ({ lot with remaining_qty := lot.remaining_qty - c } :: rest,
       [mkRoundtrip sd lot c exit_ts exit_px])
    else
      let p := consumeLots sd exit_ts exit_px rest (c - lot.remaining_qty)
      (p.1, mkRoundtrip sd lot lot.remaining_qty exit_ts exit_px :: p.2)

/-- Modelled from the spec: replay state of `RoundtripBuilder` for one
symbol — the FIFO queues of open `LONG` and `SHORT` lots and the
roundtrips emitted so far (§4.7; implementation not in the published
tree). -/
structure RtState where
  longLots : List Lot
  shortLots : List Lot
  trips : List Roundtrip
deriving DecidableEq, Repr

/-- Empty builder state: no open lots, no roundtrips. -/
def initRt : RtState := ⟨[], [], []⟩

/-- Modelled from the spec: one step of `RoundtripBuilder` (§4.7;
implementation not in the published tree). An OPEN event pushes a new lot
at the tail of its side's queue; a CLOSE event consumes that side's lots
oldest-first and appends the emitted roundtrips. -/
def rtStep (s : RtState) (e : TradeEvent) : RtState :=
  match e.side with
  | TradeSide.openLong =>
      { s with longLots := s.longLots ++ [⟨e.ts, e.fill_px, e.qty⟩] }
  | TradeSide.openShort =>
      { s with shortLots := s.shortLots ++ [⟨e.ts, e.fill_px, e.qty⟩] }
  | TradeSide.closeLong =>
      let p := consumeLots Side.long e.ts e.fill_px s.longLots e.qty
      { s with longLots := p.1, trips := s.trips ++ p.2 }
  | TradeSide.closeShort =>
      let p := consumeLots Side.short e.ts e.fill_px s.shortLots e.qty
      { s with shortLots := p.1, trips := s.trips ++ p.2 }

/-- Replay a single-symbol event stream through the builder from a given
state. -/
def rtReplayFrom (s : RtState) (l : List TradeEvent) : RtState :=
  l.foldl rtStep s

/-- Modelled from the spec: `RoundtripBuilder` replays the ledger events of
one symbol with FIFO lot matching (§4.7; implementation not in the
published tree). -/
def rtReplay (sym : String) (ledger : List TradeEvent) : RtState :=
  rtReplayFrom initRt (ledger.filter (fun e => e.symbol == sym))

/-- Total remaining quantity of a lot queue. -/
def lotsQty (lots : List Lot) : ℚ :=
  (lots.map Lot.remaining_qty).sum

/-- Accumulation/distribution price bands:
`{deepAccum, accum, distrib, safeDistrib}`. -/
structure Zones where
  deepAccum : ℚ
  accum : ℚ
  distrib : ℚ
  safeDistrib : ℚ
deriving DecidableEq, Repr

/-- The five signal labels. -/
inductive Label where
  | aggressiveAccumulation
  | accumulation
  | observation
  | distribution
  | aggressiveDistribution
deriving DecidableEq, Repr

/-- Modelled from the spec: `ZoneClassifier` derives the bands from
`SMA20 ± k·ATR` (§4.2; implementation not in the published tree):
`deepAccum = sma20 − k2·atr`, `accum = sma20 − k1·atr`,
`distrib = sma20 + k1·atr`, `safeDistrib = sma20 + k2·atr`. -/
def computeZones (sma20 atr k1 k2 : ℚ) : Zones :=
  { deepAccum := sma20 - k2 * atr
    accum := sma20 - k1 * atr
    distrib := sma20 + k1 * atr
    safeDistrib := sma20 + k2 * atr }

/-- Modelled from the spec: `ZoneClassifier` maps the current price to one
of the five labels, evaluating the most extreme condition first, with
boundary values inclusive to the more-extreme bucket (§4.2; implementation
not in the published tree). -/
def classifyLabel (z : Zones) (price : ℚ) : Label :=
  if price ≤ z.deepAccum then Label.aggressiveAccumulation
  else if price ≤ z.accum then Label.accumulation
  else if z.safeDistrib ≤ price then Label.aggressiveDistribution
  else if z.distrib ≤ price then Label.distribution
  else Label.observation

/-- Direction implied by a label: accumulation labels imply up/long,
distribution labels imply down/short, observation implies neither. -/
def labelImpliedUp : Label → Option Bool
  | Label.aggressiveAccumulation => some true
  | Label.accumulation => some true
  | Label.observation => none
  | Label.distribution => some false
  | Label.aggressiveDistribution => some false

/-- Modelled from the spec: trend-alignment component of `ScoreBlender` —
SMA20 and SMA50 slope directions compared against the label's implied
direction (§4.3; implementation not in the published tree). Each agreeing
average contributes half of the component. -/
def trendAlignment (sma20Up sma50Up : Bool) (lbl : Label) : ℚ :=
  match labelImpliedUp lbl with
  | none => 0
  | some d =>
      (if sma20Up = d then (1 : ℚ) / 2 else 0) + (if sma50Up = d then (1 : ℚ) / 2 else 0)

/-- Modelled from the spec: RSI-extremity component `|RSI − 50|`,
normalized to `[0,1]` (§4.3; implementation not in the published tree). -/
def rsiExtremity (rsi : ℚ) : ℚ := |rsi - 50| / 50

/-- Modelled from the spec: zone-proximity component — distance to the
nearest zone boundary normalized by ATR (§4.3; implementation not in the
published tree). Rational division by `atr = 0` yields `0`. -/
def zoneProximity (z : Zones) (price atr : ℚ) : ℚ :=
  let d := min (min |price - z.deepAccum| |price - z.accum|)
               (min |price - z.distrib| |price - z.safeDistrib|)
  max 0 (1 - d / atr)

/-- Fixed blend weights: "a fixed configuration, not data-dependent". -/
structure BlendWeights where
  wTrend : ℚ
  wRsi : ℚ
  wZone : ℚ
  wVol : ℚ
deriving DecidableEq, Repr

/-- Default weight configuration of the blender model. -/
def defaultWeights : BlendWeights := ⟨40, 30, 20, 10⟩

/-- Modelled from the spec: the raw (pre-rounding) blended score of
`ScoreBlender` (§4.3; implementation not in the published tree). -/
def rawScore (w : BlendWeights) (sma20Up sma50Up : Bool) (lbl : Label) (rsi : ℚ)
    (z : Zones) (price atr : ℚ) (volSpike : Bool) : ℚ :=
  w.wTrend * trendAlignment sma20Up sma50Up lbl
    + w.wRsi * rsiExtremity rsi
    + w.wZone * zoneProximity z price atr
    + w.wVol * (if volSpike then 1 else 0)

/-- Modelled from the spec: `ScoreBlender` — the raw blend rounded to the
nearest integer and clamped to `[0,100]` (§4.3; implementation not in the
published tree). -/
def blendScore (w : BlendWeights) (sma20Up sma50Up : Bool) (lbl : Label) (rsi : ℚ)
    (z : Zones) (price atr : ℚ) (volSpike : Bool) : ℤ :=
  min 100 (max 0 (round (rawScore w sma20Up sma50Up lbl rsi z price atr volSpike)))

/-- Cache regime: `ok` or `degraded`. -/
inductive Regime where
  | ok
  | degraded
deriving DecidableEq, Repr

/-- Modelled from the spec: `SignalCache` regime state — the last
successful payload (none before the first success), the current regime and
the failure counter (§4.4; implementation not in the published tree). -/
structure CacheState (α : Type) where
  value : Option α
  regime : Regime
  failureCount : ℕ
deriving DecidableEq

/-- Cold-start cache: empty payload, never an exception to the caller. -/
def initCache {α : Type} : CacheState α := ⟨none, Regime.ok, 0⟩

/-- Modelled from the spec: a successful refresh replaces the payload
wholesale and reverts the regime to `ok` (§4.4; implementation not in the
published tree). -/
def refreshOk {α : Type} (_s : CacheState α) (p : α) : CacheState α :=
  ⟨some p, Regime.ok, 0⟩

/-- Modelled from the spec: a failed refresh (timeout, 5xx, 429) keeps the
last successful payload, sets `regime = degraded` and increments the
failure counter (§4.4; implementation not in the published tree). -/
def refreshFail {α : Type} (s : CacheState α) : CacheState α :=
  ⟨s.value, Regime.degraded, s.failureCount + 1⟩

/-- What a reader gets from the cache: the last successful payload. -/
def readCache {α : Type} (s : CacheState α) : Option α := s.value

/-- Apply `n` consecutive failed refreshes. -/
def failTimes {α : Type} (s : CacheState α) : ℕ → CacheState α
  | 0 => s
  | n + 1 => refreshFail (failTimes s n)

/-- A JSON value, as produced by `JSON.parse` on a well-formed body. -/
inductive Json where
  | null
  | bool (b : Bool)
  | num (q : ℚ)
  | str (s : String)
  | arr (elems : List Json)
  | obj (fields : List (String × Json))

/-- Whether a JSON value is `null` (JS `data === null`). -/
def isNullJson : Json → Bool
  | Json.null => true
  | _ => false

/-- JS truthiness of a JSON value (`null`, `false`, `0` and `""` are
falsy; arrays and objects are truthy). -/
def jsTruthy : Json → Bool
  | Json.null => false
  | Json.bool b => b
  | Json.num q => !(q == 0)
  | Json.str s => !(s == "")
  | Json.arr _ => true
  | Json.obj _ => true

/-- JS `x || dflt` where `x` may be `undefined` (`none`). -/
def jsOrElse (v : Option Json) (dflt : Json) : Json :=
  match v with
  | some x => if jsTruthy x then x else dflt
  | none => dflt

/-- JS optional property access `d?.k`: `undefined` (`none`) on `null`,
primitives and arrays; field lookup on objects. -/
def jsGetOpt (d : Json) (k : String) : Option Json :=
  match d with
  | Json.obj fields => fields.lookup k
  | _ => none

/-- JS plain property access `d.k`: a TypeError (`Except.error`) on
`null`; `undefined` (`none`) on primitives and arrays; field lookup on
objects. -/
def jsGet (d : Json) (k : String) : Except Unit (Option Json) :=
  match d with
  | Json.null => Except.error ()
  | Json.obj fields => Except.ok (fields.lookup k)
  | _ => Except.ok none

/-- Translated from `web/pages/index.tsx` `fetchData`: the list rendered for the
`/v1/strategies` response —
`Array.isArray(strategiesData) ? strategiesData : strategiesData?.items || []`. -/
def fetchDataItems (strategiesData : Json) : Json :=
  match strategiesData with
  | Json.arr elems => Json.arr elems
  | _ => jsOrElse (jsGetOpt strategiesData "items") (Json.arr [])

/-- The newer strategy-detail page's `fetchLogs`: the list rendered for
the `/v1/strategies/{id}/logs` response —
`Array.isArray(data) ? data : data?.value || []`. -/
def fetchLogsItems (data : Json) : Json :=
  match data with
  | Json.arr elems => Json.arr elems
  | _ => jsOrElse (jsGetOpt data "value") (Json.arr [])

/-- Translated from `web/pages/strategies/index.tsx` `fetchStrategies`: the list for the
`/v1/strategies` response — `Array.isArray(data) ? data : data.items || []`
with a plain (non-optional) property access, so a `null` body throws a
TypeError that the surrounding `catch` turns into an error state. -/
def fetchStrategiesItems (data : Json) : Except Unit Json :=
  match data with
  | Json.arr elems => Except.ok (Json.arr elems)
  | _ => (jsGet data "items").map (fun v => jsOrElse v (Json.arr []))

/-- Translated from `web/pages/strategies/[id].tsx` `fetchLogs`: `setLogs(data)` — the
parsed body is assigned unchanged, with no shape normalization. -/
def strategyDetailLogs (data : Json) : Json := data

/-- The normalization rule C10 states, written from the claim's words: a
bare array is the list itself, an object yields its wrapper field (with
the empty list replacing a missing or falsy field), and any other JSON
shape falls back to the empty list. -/
def claimNormalize (data : Json) (k : String) : Json :=
  match data with
  | Json.arr elems => Json.arr elems
  | Json.obj fields => jsOrElse (fields.lookup k) (Json.arr [])
  | _ => Json.arr []

/-- JS `s.trim().length > 0`: the string has a non-whitespace character.
Modelled over the character list (`String.trim` itself is not
kernel-reducible). -/
def trimNonEmpty (v : String) : Bool :=
  v.data.any (fun c => !c.isWhitespace)

/-- JS truthy-and-non-blank test `envVal && envVal.trim().length > 0`. -/
def nonBlankEnv (v : String) : Bool :=
  !(v == "") && trimNonEmpty v

/-- The host-based fallback shared by every copy of `resolveApiBase`:
`window` is `none` when no browser window exists, otherwise holds
`window.location.hostname`. -/
def hostFallback (window : Option String) : String :=
  match window with
  | some host =>
      if !(host == "") && !(host == "localhost") && !(host == "127.0.0.1") then
        "https://heyanon-platform.onrender.com"
      else "http://localhost:8000"
  | none => "http://localhost:8000"

/-- Translated from `resolveApiBase` as written in `web/components/Signals.tsx`,
`web/pages/strategies/index.tsx` and both strategy-detail pages: the
environment value consulted is `NEXT_PUBLIC_API_URL` only. -/
def resolveApiBaseSignals (envUrl window : Option String) : String :=
  match envUrl with
  | some envVal => if nonBlankEnv envVal then envVal else hostFallback window
  | none => hostFallback window

/-- JS `a || b` over possibly-undefined strings. -/
def jsOrString (a b : Option String) : Option String :=
  match a with
  | some s => if s == "" then b else some s
  | none => b

/-- Translated from `resolveApiBase` as written in `web/pages/index.tsx`: the environment
value is `process.env.NEXT_PUBLIC_API_URL || process.env.NEXT_PUBLIC_API_BASE_URL`. -/
def resolveApiBaseIndex (envUrl envBaseUrl window : Option String) : String :=
  match jsOrString envUrl envBaseUrl with
  | some envVal => if nonBlankEnv envVal then envVal else hostFallback window
  | none => hostFallback window

/-- The resolution rule C9 states, written from the claim's words: a set,
non-blank `NEXT_PUBLIC_API_URL` is returned as-is; otherwise the public
URL exactly when a window exists with a non-empty hostname other than
`localhost` and `127.0.0.1`, and the local default in every other case. -/
def claimResolveApiBase (envUrl window : Option String) : String :=
  match envUrl with
  | some v => if trimNonEmpty v then v else hostFallback window
  | none => hostFallback window

/-- The cross-check relation of §4.7: the builder's residual queues carry
exactly the derived position — each queue's total remaining quantity is
the position quantity on the position's side and zero on the other. -/
def residualMatches (b : RtState) (p : ReconState) : Prop :=
  lotsQty b.longLots = (if p.side = Side.long then p.qty else 0)
  ∧ lotsQty b.shortLots = (if p.side = Side.short then p.qty else 0)

instance (b : RtState) (p : ReconState) : Decidable (residualMatches b p) := by
  unfold residualMatches; infer_instance

/-!  ## Supporting lemmas  -/

theorem nonBlankEnv_eq_trim (v : String) :
    nonBlankEnv v = trimNonEmpty v := by
  by_cases h : v = ""
  · subst h; decide
  · simp [nonBlankEnv, h]

theorem failTimes_value {α : Type} (s : CacheState α) :
    ∀ n, (failTimes s n).value = s.value := by
  intro n
  induction n with
  | zero => rfl
  | succ m ih => simp [failTimes, refreshFail, ih]

theorem lotsQty_nil : lotsQty [] = 0 := rfl

theorem lotsQty_cons (lot : Lot) (rest : List Lot) :
    lotsQty (lot :: rest) = lot.remaining_qty + lotsQty rest := by
  simp [lotsQty]

theorem lotsQty_append (l1 l2 : List Lot) :
    lotsQty (l1 ++ l2) = lotsQty l1 + lotsQty l2 := by
  simp [lotsQty]

theorem lotsQty_singleton (lot : Lot) : lotsQty [lot] = lot.remaining_qty := by
  simp [lotsQty]

theorem lotsQty_nonneg (lots : List Lot)
    (h : ∀ lot ∈ lots, 0 < lot.remaining_qty) : 0 ≤ lotsQty lots := by
  induction lots with
  | nil => simp [lotsQty]
  | cons lot rest ih =>
      rw [lotsQty_cons]
      have h1 := h lot (List.mem_cons_self lot rest)
      have h2 := ih (fun x hx => h x (List.mem_cons_of_mem lot hx))
      linarith

/-- Consuming `c` from a queue of positive lots with total at least `c`
removes exactly `c` and keeps every remaining lot positive. -/
theorem consumeLots_qty (sd : Side) (ts px : ℚ) :
    ∀ (lots : List Lot) (c : ℚ), 0 ≤ c → c ≤ lotsQty lots →
      (∀ lot ∈ lots, 0 < lot.remaining_qty) →
      lotsQty (consumeLots sd ts px lots c).1 = lotsQty lots - c
      ∧ (∀ lot ∈ (consumeLots sd ts px lots c).1, 0 < lot.remaining_qty) := by
  intro lots
  induction lots with
  | nil =>
      intro c hc0 hcle _
      rw [lotsQty_nil] at hcle
      have hc : c = 0 := le_antisymm hcle hc0
      subst hc
      exact ⟨by simp [consumeLots, lotsQty_nil], by simp [consumeLots]⟩
  | cons lot rest ih =>
      intro c hc0 hcle hpos
      rw [lotsQty_cons] at hcle
      have hlot : 0 < lot.remaining_qty := hpos lot (List.mem_cons_self lot rest)
      have hrest : ∀ x ∈ rest, 0 < x.remaining_qty :=
        fun x hx => hpos x (List.mem_cons_of_mem lot hx)
      by_cases hz : c ≤ 0
      · have hc : c = 0 := le_antisymm hz hc0
        subst hc
        constructor
        · simp [consumeLots, lotsQty_cons]
        · simpa [consumeLots] using hpos
      · have hcpos : 0 < c := lt_of_not_le hz
        by_cases hsplit : c < lot.remaining_qty
        · constructor
          · simp [consumeLots, hz, hsplit, lotsQty_cons]
            ring
          · intro x hx
            simp [consumeLots, hz, hsplit] at hx
            rcases hx with hx | hx
            · rw [hx]; dsimp; linarith
            · exact hrest x hx
        · have hge : lot.remaining_qty ≤ c := le_of_not_lt hsplit
          have hih := ih (c - lot.remaining_qty) (by linarith) (by linarith) hrest
          constructor
          · simp [consumeLots, hz, hsplit]
            rw [hih.1, lotsQty_cons]
            ring
          · intro x hx
            simp [consumeLots, hz, hsplit] at hx
            exact hih.2 x hx

/-- The position invariant of the data model: the derived quantity is
nonnegative and `side = FLAT ⇔ qty = 0`. -/
def PosInv (s : ReconState) : Prop :=
  0 ≤ s.qty ∧ (s.side = Side.flat ↔ s.qty = 0)

theorem initRecon_posInv : PosInv initRecon := by
  constructor <;> simp [initRecon]

theorem reconStep_posInv (s : ReconState) (e : TradeEvent)
    (hq : 0 < e.qty) (h : PosInv s) : PosInv (reconStep s e) := by
  obtain ⟨sd, q, av, fl⟩ := s
  obtain ⟨ts, esd, sym, px, eq, oid, st⟩ := e
  obtain ⟨hnn, hiff⟩ := h
  dsimp at hnn hiff hq
  cases esd <;> cases sd <;>
    simp_all only [reconStep, flagEvent, PosInv] <;>
    (try split_ifs) <;>
    simp_all <;>
    exact ⟨by linarith, fun hx => by linarith⟩

theorem reconStep_flags_le (s : ReconState) (e : TradeEvent) :
    s.flags ≤ (reconStep s e).flags := by
  obtain ⟨sd, q, av, fl⟩ := s
  obtain ⟨ts, esd, sym, px, eq, oid, st⟩ := e
  cases esd <;> cases sd <;>
    simp only [reconStep, flagEvent] <;> (try split_ifs) <;> simp

theorem reconReplayFrom_flags_le :
    ∀ (l : List TradeEvent) (s : ReconState), s.flags ≤ (reconReplayFrom s l).flags := by
  intro l
  induction l with
  | nil => intro s; exact le_refl _
  | cons e rest ih =>
      intro s
      exact le_trans (reconStep_flags_le s e) (ih (reconStep s e))

/-- Simulation invariant tying the reconciler state to the builder state:
the position invariant holds, every queued lot has positive remaining
quantity, and the residual queue totals carry exactly the derived
position. -/
def SimInv (p : ReconState) (b : RtState) : Prop :=
  PosInv p
  ∧ (∀ lot ∈ b.longLots, 0 < lot.remaining_qty)
  ∧ (∀ lot ∈ b.shortLots, 0 < lot.remaining_qty)
  ∧ residualMatches b p

theorem simInv_init : SimInv initRecon initRt := by
  refine ⟨initRecon_posInv, ?_, ?_, ?_, ?_⟩ <;>
    simp [initRt, initRecon, residualMatches, lotsQty]

/-- An unflagged reconciliation step preserves the simulation invariant
(the builder applied to the same event). -/
theorem simInv_step (p : ReconState) (b : RtState) (e : TradeEvent)
    (hq : 0 < e.qty) (hnf : (reconStep p e).flags = p.flags) (h : SimInv p b) :
    SimInv (reconStep p e) (rtStep b e) := by
  have hp := reconStep_posInv p e hq h.1
  obtain ⟨sd, q, av, fl⟩ := p
  obtain ⟨ll, sl, tr⟩ := b
  obtain ⟨ts, esd, sym, px, eq, oid, st⟩ := e
  obtain ⟨⟨hnn, hiff⟩, hlpos, hspos, hresL, hresS⟩ := h
  dsimp at hnn hiff hq hnf hresL hresS hlpos hspos
  cases esd with
  | openLong =>
      cases sd with
      | flat =>
          simp only [reconStep, rtStep] at hp ⊢
          simp at hresL hresS
          refine ⟨hp, ?_, hspos, ?_, ?_⟩
          · intro x hx
            simp at hx
            rcases hx with hx | hx
            · exact hlpos x hx
            · subst hx; exact hq
          · simp [residualMatches, lotsQty_append, lotsQty_singleton, hresL]
          · simp at hp ⊢
            exact hresS
      | long =>
          simp only [reconStep, rtStep] at hp ⊢
          simp at hresL hresS
          refine ⟨hp, ?_, hspos, ?_, ?_⟩
          · intro x hx
            simp at hx
            rcases hx with hx | hx
            · exact hlpos x hx
            · subst hx; exact hq
          · simp [residualMatches, lotsQty_append, lotsQty_singleton, hresL]
          · simpa using hresS
      | short =>
          simp only [reconStep, flagEvent] at hnf
          exact absurd hnf (by omega)
  | closeLong =>
      cases sd with
      | flat =>
          simp only [reconStep, flagEvent] at hnf
          exact absurd hnf (by omega)
      | long =>
          simp at hresL hresS
          by_cases h1 : eq < q
          · have hcq := consumeLots_qty Side.long ts px ll eq (le_of_lt hq)
              (by rw [hresL]; exact le_of_lt h1) hlpos
            simp only [reconStep, rtStep, if_pos h1] at hp ⊢
            refine ⟨hp, hcq.2, hspos, ?_, ?_⟩
            · simp [residualMatches]
              rw [hcq.1, hresL]
            · simpa using hresS
          · by_cases h2 : eq = q
            · have hcq := consumeLots_qty Side.long ts px ll eq (le_of_lt hq)
                (by rw [hresL]; exact le_of_eq h2) hlpos
              simp only [reconStep, rtStep, if_neg h1, if_pos h2] at hp ⊢
              refine ⟨hp, hcq.2, hspos, ?_, ?_⟩
              · simp [residualMatches]
                rw [hcq.1, hresL, h2]
                ring
              · simpa using hresS
            · simp only [reconStep, if_neg h1, if_neg h2] at hnf
              exact absurd hnf (by omega)
      | short =>
          simp only [reconStep, flagEvent] at hnf
          exact absurd hnf (by omega)
  | openShort =>
      cases sd with
      | flat =>
          simp only [reconStep, rtStep] at hp ⊢
          simp at hresL hresS
          refine ⟨hp, hlpos, ?_, ?_, ?_⟩
          · intro x hx
            simp at hx
            rcases hx with hx | hx
            · exact hspos x hx
            · subst hx; exact hq
          · simpa using hresL
          · simp [residualMatches, lotsQty_append, lotsQty_singleton, hresS]
      | long =>
          simp only [reconStep, flagEvent] at hnf
          exact absurd hnf (by omega)
      | short =>
          simp only [reconStep, rtStep] at hp ⊢
          simp at hresL hresS
          refine ⟨hp, hlpos, ?_, ?_, ?_⟩
          · intro x hx
            simp at hx
            rcases hx with hx | hx
            · exact hspos x hx
            · subst hx; exact hq
          · simpa using hresL
          · simp [residualMatches, lotsQty_append, lotsQty_singleton, hresS]
  | closeShort =>
      cases sd with
      | flat =>
          simp only [reconStep, flagEvent] at hnf
          exact absurd hnf (by omega)
      | long =>
          simp only [reconStep, flagEvent] at hnf
          exact absurd hnf (by omega)
      | short =>
          simp at hresL hresS
          by_cases h1 : eq < q
          · have hcq := consumeLots_qty Side.short ts px sl eq (le_of_lt hq)
              (by rw [hresS]; exact le_of_lt h1) hspos
            simp only [reconStep, rtStep, if_pos h1] at hp ⊢
            refine ⟨hp, hlpos, hcq.2, ?_, ?_⟩
            · simpa using hresL
            · simp [residualMatches]
              rw [hcq.1, hresS]
          · by_cases h2 : eq = q
            · have hcq := consumeLots_qty Side.short ts px sl eq (le_of_lt hq)
                (by rw [hresS]; exact le_of_eq h2) hspos
              simp only [reconStep, rtStep, if_neg h1, if_pos h2] at hp ⊢
              refine ⟨hp, hlpos, hcq.2, ?_, ?_⟩
              · simpa using hresL
              · simp [residualMatches]
                rw [hcq.1, hresS, h2]
                ring
            · simp only [reconStep, if_neg h1, if_neg h2] at hnf
              exact absurd hnf (by omega)

/-- Replaying an all-positive, never-flagged event stream preserves the
simulation invariant. -/
theorem simInv_replay :
    ∀ (l : List TradeEvent) (p : ReconState) (b : RtState), SimInv p b →
      (∀ e ∈ l, 0 < e.qty) → (reconReplayFrom p l).flags = p.flags →
      SimInv (reconReplayFrom p l) (rtReplayFrom b l) := by
  intro l
  induction l with
  | nil => intro p b h _ _; exact h
  | cons e rest ih =>
      intro p b h hq hnf
      have hmono1 : p.flags ≤ (reconStep p e).flags := reconStep_flags_le p e
      have hmono2 : (reconStep p e).flags ≤ (reconReplayFrom (reconStep p e) rest).flags :=
        reconReplayFrom_flags_le rest (reconStep p e)
      have hstepnf : (reconStep p e).flags = p.flags := by
        have : reconReplayFrom p (e :: rest) = reconReplayFrom (reconStep p e) rest := rfl
        rw [this] at hnf
        omega
      have hrestnf : (reconReplayFrom (reconStep p e) rest).flags = (reconStep p e).flags := by
        have : reconReplayFrom p (e :: rest) = reconReplayFrom (reconStep p e) rest := rfl
        rw [this] at hnf
        omega
      exact ih (reconStep p e) (rtStep b e)
        (simInv_step p b e (hq e (List.mem_cons_self e rest)) hstepnf h)
        (fun x hx => hq x (List.mem_cons_of_mem e hx))
        hrestnf

theorem reconReplayFrom_posInv :
    ∀ (l : List TradeEvent) (s : ReconState), PosInv s → (∀ e ∈ l, 0 < e.qty) →
      PosInv (reconReplayFrom s l) := by
  intro l
  induction l with
  | nil => intro s h _; exact h
  | cons e rest ih =>
      intro s h hq
      exact ih (reconStep s e)
        (reconStep_posInv s e (hq e (List.mem_cons_self e rest)) h)
        (fun x hx => hq x (List.mem_cons_of_mem e hx))

/-!  ## Claim theorems  -/

/-- C1: for every ledger of exactly `OPEN_LONG qty=2 @ 100`,
`CLOSE_LONG qty=1 @ 110`, `CLOSE_LONG qty=1 @ 90` (in that order, same
symbol), the FIFO matching emits exactly the two roundtrips
`{qty=1, pnl_quote=10}` then `{qty=1, pnl_quote=-10}` — the first close
splits the open lot and the remainder (quantity 1) stays queued — and the
reconciled position after the full replay is `FLAT`. -/
theorem fifo_partial_close_example (sym oid1 oid2 oid3 st1 st2 st3 : String) (t1 t2 t3 : ℚ) :
    ((rtReplay sym [⟨t1, TradeSide.openLong, sym, 100, 2, oid1, st1⟩,
                    ⟨t2, TradeSide.closeLong, sym, 110, 1, oid2, st2⟩,
                    ⟨t3, TradeSide.closeLong, sym, 90, 1, oid3, st3⟩]).trips.map
        (fun r => (r.qty, r.pnl_quote)) = [(1, 10), (1, -10)])
    ∧ ((rtReplay sym [⟨t1, TradeSide.openLong, sym, 100, 2, oid1, st1⟩,
                      ⟨t2, TradeSide.closeLong, sym, 110, 1, oid2, st2⟩]).longLots.map
        (fun lot => lot.remaining_qty) = [1])
    ∧ (positionReplay sym [⟨t1, TradeSide.openLong, sym, 100, 2, oid1, st1⟩,
                           ⟨t2, TradeSide.closeLong, sym, 110, 1, oid2, st2⟩,
                           ⟨t3, TradeSide.closeLong, sym, 90, 1, oid3, st3⟩]).side = Side.flat := by
  refine ⟨?_, ?_, ?_⟩ <;>
    norm_num [rtReplay, rtReplayFrom, positionReplay, reconReplayFrom, rtStep, reconStep,
      consumeLots, mkRoundtrip, initRt, initRecon]

/-- C2: replaying any all-positive-quantity ledger prefix from `FLAT`
keeps the derived quantity nonnegative with `side = FLAT ⇔ qty = 0`; and a
CLOSE whose fill quantity exceeds the open quantity clamps the quantity at
0 (going `FLAT`), flags the inconsistency, and never drives the quantity
negative. -/
theorem position_invariant_and_clamp :
    (∀ (sym : String) (l1 l2 : List TradeEvent),
        (∀ e ∈ l1 ++ l2, 0 < e.qty) →
        0 ≤ (positionReplay sym l1).qty
          ∧ ((positionReplay sym l1).side = Side.flat ↔ (positionReplay sym l1).qty = 0))
    ∧ (∀ (s : ReconState) (e : TradeEvent), s.side = Side.long →
        e.side = TradeSide.closeLong → s.qty < e.qty →
        (reconStep s e).qty = 0 ∧ (reconStep s e).side = Side.flat
          ∧ (reconStep s e).flags = s.flags + 1) := by
  constructor
  · intro sym l1 l2 h
    have hinv := reconReplayFrom_posInv (l1.filter (fun e => e.symbol == sym)) initRecon
      initRecon_posInv
      (fun e he => h e (List.mem_append_left l2 (List.mem_of_mem_filter he)))
    exact ⟨hinv.1, hinv.2⟩
  · intro s e hside hes hlt
    obtain ⟨sd, q, av, fl⟩ := s
    obtain ⟨ts, esd, sym, px, eq, oid, st⟩ := e
    dsimp at hside hes hlt
    subst hside
    subst hes
    simp only [reconStep]
    rw [if_neg (by intro hc; exact absurd hlt (by linarith)),
        if_neg (by intro hEq; rw [hEq] at hlt; exact absurd hlt (lt_irrefl q))]
    exact ⟨rfl, rfl, rfl⟩

theorem position_invariant_and_clamp_witness :
    ((∀ e ∈ ([⟨1, TradeSide.openLong, "BTC", 100, 1, "a", "filled"⟩] : List TradeEvent)
        ++ [], 0 < e.qty)
      ∧ 0 ≤ (positionReplay "BTC" [⟨1, TradeSide.openLong, "BTC", 100, 1, "a", "filled"⟩]).qty
      ∧ ((positionReplay "BTC" [⟨1, TradeSide.openLong, "BTC", 100, 1, "a", "filled"⟩]).side
            = Side.flat
          ↔ (positionReplay "BTC" [⟨1, TradeSide.openLong, "BTC", 100, 1, "a", "filled"⟩]).qty
            = 0))
    ∧ ((reconStep ⟨Side.long, 1, 100, 0⟩ ⟨2, TradeSide.closeLong, "BTC", 50, 3, "b", "filled"⟩).qty
          = 0
        ∧ (reconStep ⟨Side.long, 1, 100, 0⟩
            ⟨2, TradeSide.closeLong, "BTC", 50, 3, "b", "filled"⟩).side = Side.flat
        ∧ (reconStep ⟨Side.long, 1, 100, 0⟩
            ⟨2, TradeSide.closeLong, "BTC", 50, 3, "b", "filled"⟩).flags = 0 + 1) :=
  ⟨⟨by decide,
    position_invariant_and_clamp.1 "BTC"
      [⟨1, TradeSide.openLong, "BTC", 100, 1, "a", "filled"⟩] [] (by decide)⟩,
   position_invariant_and_clamp.2 ⟨Side.long, 1, 100, 0⟩
     ⟨2, TradeSide.closeLong, "BTC", 50, 3, "b", "filled"⟩ rfl rfl (by norm_num)⟩

/-- C3 (counterexample): for the ledger `OPEN_LONG qty=1 @ 100` then
`OPEN_SHORT qty=1 @ 100` (the latter invalid from `LONG`, so the
reconciler flags and skips it while the builder unconditionally queues the
lot), the builder's residual short queue holds quantity 1 although the
derived position is `LONG 1` — the residual queues do not equal the
derived position for every ledger. -/
theorem residual_cross_check_counterexample :
    (positionReplay "BTC" [⟨1, TradeSide.openLong, "BTC", 100, 1, "a", "filled"⟩,
                           ⟨2, TradeSide.openShort, "BTC", 100, 1, "b", "filled"⟩]).side
        = Side.long
    ∧ (positionReplay "BTC" [⟨1, TradeSide.openLong, "BTC", 100, 1, "a", "filled"⟩,
                             ⟨2, TradeSide.openShort, "BTC", 100, 1, "b", "filled"⟩]).qty = 1
    ∧ lotsQty (rtReplay "BTC" [⟨1, TradeSide.openLong, "BTC", 100, 1, "a", "filled"⟩,
                               ⟨2, TradeSide.openShort, "BTC", 100, 1, "b", "filled"⟩]).shortLots
        = 1
    ∧ ¬ residualMatches
        (rtReplay "BTC" [⟨1, TradeSide.openLong, "BTC", 100, 1, "a", "filled"⟩,
                         ⟨2, TradeSide.openShort, "BTC", 100, 1, "b", "filled"⟩])
        (positionReplay "BTC" [⟨1, TradeSide.openLong, "BTC", 100, 1, "a", "filled"⟩,
                               ⟨2, TradeSide.openShort, "BTC", 100, 1, "b", "filled"⟩]) := by
  refine ⟨?_, ?_, ?_, ?_⟩ <;>
    norm_num [rtReplay, rtReplayFrom, positionReplay, reconReplayFrom, rtStep, reconStep,
      consumeLots, initRt, initRecon, flagEvent, residualMatches, lotsQty]
  decide

/-- C3 (amended): for every ledger whose events all have positive quantity
and whose full replay flags no reconciliation inconsistency, the residual
open-lot queues left by the builder carry exactly the derived position —
each queue's total remaining quantity equals the position quantity on the
position's side and is zero on the other side. -/
theorem residual_cross_check (sym : String) (ledger : List TradeEvent)
    (hq : ∀ e ∈ ledger, 0 < e.qty)
    (hf : (positionReplay sym ledger).flags = 0) :
    residualMatches (rtReplay sym ledger) (positionReplay sym ledger) := by
  have h := simInv_replay (ledger.filter (fun e => e.symbol == sym)) initRecon initRt
    simInv_init
    (fun e he => hq e (List.mem_of_mem_filter he))
    (by
      have h0 : initRecon.flags = 0 := rfl
      rw [h0]
      exact hf)
  exact h.2.2.2

theorem residual_cross_check_witness :
    ((∀ e ∈ ([⟨1, TradeSide.openLong, "BTC", 100, 2, "a", "filled"⟩,
              ⟨2, TradeSide.closeLong, "BTC", 110, 1, "b", "filled"⟩,
              ⟨3, TradeSide.closeLong, "BTC", 90, 1, "c", "filled"⟩] : List TradeEvent),
        0 < e.qty)
      ∧ (positionReplay "BTC" [⟨1, TradeSide.openLong, "BTC", 100, 2, "a", "filled"⟩,
                               ⟨2, TradeSide.closeLong, "BTC", 110, 1, "b", "filled"⟩,
                               ⟨3, TradeSide.closeLong, "BTC", 90, 1, "c", "filled"⟩]).flags = 0)
    ∧ residualMatches
        (rtReplay "BTC" [⟨1, TradeSide.openLong, "BTC", 100, 2, "a", "filled"⟩,
                         ⟨2, TradeSide.closeLong, "BTC", 110, 1, "b", "filled"⟩,
                         ⟨3, TradeSide.closeLong, "BTC", 90, 1, "c", "filled"⟩])
        (positionReplay "BTC" [⟨1, TradeSide.openLong, "BTC", 100, 2, "a", "filled"⟩,
                               ⟨2, TradeSide.closeLong, "BTC", 110, 1, "b", "filled"⟩,
                               ⟨3, TradeSide.closeLong, "BTC", 90, 1, "c", "filled"⟩]) :=
  ⟨⟨by decide,
    by norm_num [positionReplay, reconReplayFrom, reconStep, initRecon]⟩,
   residual_cross_check "BTC"
     [⟨1, TradeSide.openLong, "BTC", 100, 2, "a", "filled"⟩,
      ⟨2, TradeSide.closeLong, "BTC", 110, 1, "b", "filled"⟩,
      ⟨3, TradeSide.closeLong, "BTC", 90, 1, "c", "filled"⟩] (by decide)
     (by norm_num [positionReplay, reconReplayFrom, reconStep, initRecon])⟩

/-- C7: the two replay computations are deterministic pure functions of
the ledger contents — two runs on equal ledgers give equal positions and
equal builder results. -/
theorem replay_deterministic (sym : String) (l1 l2 : List TradeEvent) (h : l1 = l2) :
    positionReplay sym l1 = positionReplay sym l2 ∧ rtReplay sym l1 = rtReplay sym l2 := by
  subst h
  exact ⟨rfl, rfl⟩

theorem replay_deterministic_witness :
    ([⟨1, TradeSide.openLong, "BTC", 100, 1, "a", "filled"⟩] : List TradeEvent)
        = [⟨1, TradeSide.openLong, "BTC", 100, 1, "a", "filled"⟩]
    ∧ (positionReplay "BTC" [⟨1, TradeSide.openLong, "BTC", 100, 1, "a", "filled"⟩]
          = positionReplay "BTC" [⟨1, TradeSide.openLong, "BTC", 100, 1, "a", "filled"⟩]
        ∧ rtReplay "BTC" [⟨1, TradeSide.openLong, "BTC", 100, 1, "a", "filled"⟩]
          = rtReplay "BTC" [⟨1, TradeSide.openLong, "BTC", 100, 1, "a", "filled"⟩]) :=
  ⟨rfl, replay_deterministic "BTC"
    [⟨1, TradeSide.openLong, "BTC", 100, 1, "a", "filled"⟩]
    [⟨1, TradeSide.openLong, "BTC", 100, 1, "a", "filled"⟩] rfl⟩

/-- C4: for every zone tuple with
`deepAccum < accum < distrib < safeDistrib` and every price, the
classifier is total and yields exactly one of the five labels, resolved
most-extreme-condition-first with boundaries inclusive to the more
extreme bucket: each label holds exactly on its stated price range, so
the five ranges partition the line. -/
theorem zone_label_characterization (z : Zones) (price : ℚ)
    (h1 : z.deepAccum < z.accum) (h2 : z.accum < z.distrib)
    (h3 : z.distrib < z.safeDistrib) :
    (classifyLabel z price = Label.aggressiveAccumulation ↔ price ≤ z.deepAccum)
    ∧ (classifyLabel z price = Label.accumulation ↔ z.deepAccum < price ∧ price ≤ z.accum)
    ∧ (classifyLabel z price = Label.aggressiveDistribution ↔ z.safeDistrib ≤ price)
    ∧ (classifyLabel z price = Label.distribution ↔ z.distrib ≤ price ∧ price < z.safeDistrib)
    ∧ (classifyLabel z price = Label.observation ↔ z.accum < price ∧ price < z.distrib) := by
  unfold classifyLabel
  split_ifs with ha hb hc hd <;>
    refine ⟨?_, ?_, ?_, ?_, ?_⟩ <;>
    constructor <;>
    intro hx <;>
    first
      | rfl
      | (exact Label.noConfusion hx)
      | (exact False.elim hx)
      | (exfalso; linarith [hx.1, hx.2])
      | (exfalso; linarith [hx])
      | (refine ⟨by linarith, by linarith⟩)
      | linarith

theorem zone_label_characterization_witness :
    ((90 : ℚ) < 95 ∧ (95 : ℚ) < 105 ∧ (105 : ℚ) < 110)
    ∧ ((classifyLabel ⟨90, 95, 105, 110⟩ 100 = Label.aggressiveAccumulation ↔ (100 : ℚ) ≤ 90)
      ∧ (classifyLabel ⟨90, 95, 105, 110⟩ 100 = Label.accumulation
          ↔ (90 : ℚ) < 100 ∧ (100 : ℚ) ≤ 95)
      ∧ (classifyLabel ⟨90, 95, 105, 110⟩ 100 = Label.aggressiveDistribution ↔ (110 : ℚ) ≤ 100)
      ∧ (classifyLabel ⟨90, 95, 105, 110⟩ 100 = Label.distribution
          ↔ (105 : ℚ) ≤ 100 ∧ (100 : ℚ) < 110)
      ∧ (classifyLabel ⟨90, 95, 105, 110⟩ 100 = Label.observation
          ↔ (95 : ℚ) < 100 ∧ (100 : ℚ) < 105)) :=
  ⟨⟨by norm_num, by norm_num, by norm_num⟩,
   zone_label_characterization ⟨90, 95, 105, 110⟩ 100 (by norm_num) (by norm_num) (by norm_num)⟩

/-- C5: for every input to the score blender — including degenerate
inputs such as `atr = 0` or `rsi = 0` or `100` — the score is an integer
in `[0, 100]`, obtained by rounding the raw blend to the nearest integer
and clamping. -/
theorem blend_score_in_range (w : BlendWeights) (sma20Up sma50Up : Bool) (lbl : Label)
    (rsi : ℚ) (z : Zones) (price atr : ℚ) (volSpike : Bool) :
    0 ≤ blendScore w sma20Up sma50Up lbl rsi z price atr volSpike
    ∧ blendScore w sma20Up sma50Up lbl rsi z price atr volSpike ≤ 100
    ∧ blendScore w sma20Up sma50Up lbl rsi z price atr volSpike
        = min 100 (max 0 (round (rawScore w sma20Up sma50Up lbl rsi z price atr volSpike))) :=
  ⟨le_min (by norm_num) (le_max_left 0 _), min_le_left _ _, rfl⟩

/-- C6: once the cache has a successful payload, any `N ≥ 1` consecutive
refresh failures leave it serving that payload with `regime = degraded`,
and the next successful refresh serves the new payload with
`regime = ok`. -/
theorem cache_serves_stale_and_recovers {α : Type} (s : CacheState α) (p p' : α) (N : ℕ)
    (hv : readCache s = some p) (hN : 1 ≤ N) :
    readCache (failTimes s N) = some p
    ∧ (failTimes s N).regime = Regime.degraded
    ∧ readCache (refreshOk (failTimes s N) p') = some p'
    ∧ (refreshOk (failTimes s N) p').regime = Regime.ok := by
  obtain ⟨m, rfl⟩ : ∃ m, N = m + 1 := ⟨N - 1, by omega⟩
  refine ⟨?_, rfl, rfl, rfl⟩
  show (failTimes s (m + 1)).value = some p
  have hstep : (failTimes s (m + 1)).value = (failTimes s m).value := rfl
  rw [hstep, failTimes_value]
  exact hv

theorem cache_serves_stale_and_recovers_witness :
    (readCache (⟨some 7, Regime.ok, 0⟩ : CacheState ℕ) = some 7 ∧ 1 ≤ 3)
    ∧ (readCache (failTimes (⟨some 7, Regime.ok, 0⟩ : CacheState ℕ) 3) = some 7
      ∧ (failTimes (⟨some 7, Regime.ok, 0⟩ : CacheState ℕ) 3).regime = Regime.degraded
      ∧ readCache (refreshOk (failTimes (⟨some 7, Regime.ok, 0⟩ : CacheState ℕ) 3) 9) = some 9
      ∧ (refreshOk (failTimes (⟨some 7, Regime.ok, 0⟩ : CacheState ℕ) 3) 9).regime
          = Regime.ok) :=
  ⟨⟨rfl, by norm_num⟩,
   cache_serves_stale_and_recovers (⟨some 7, Regime.ok, 0⟩ : CacheState ℕ) 7 9 3 rfl
     (by norm_num)⟩

/-- C8 (counterexample): with `sma20 = 100`, `atr = 0` (allowed by the
claim's `atr ≥ 0`) and `k1 = 1 < 2 = k2`, all four zone bounds collapse
to `100`, so the strict part `deepAccum < accum` of the claimed invariant
fails. -/
theorem zones_invariant_counterexample :
    (0 : ℚ) ≤ 0 ∧ (1 : ℚ) < 2
    ∧ (computeZones 100 0 1 2).deepAccum = 100
    ∧ (computeZones 100 0 1 2).accum = 100
    ∧ ¬((computeZones 100 0 1 2).deepAccum < (computeZones 100 0 1 2).accum
        ∧ (computeZones 100 0 1 2).accum ≤ 100
        ∧ (100 : ℚ) ≤ (computeZones 100 0 1 2).distrib
        ∧ (computeZones 100 0 1 2).distrib < (computeZones 100 0 1 2).safeDistrib) := by
  norm_num [computeZones]

/-- C8 (amended): for every `sma20`, every `atr > 0` and every
configuration with `0 ≤ k1 < k2`, the computed zones satisfy
`deepAccum < accum ≤ sma20 ≤ distrib < safeDistrib`. -/
theorem zones_invariant (sma20 atr k1 k2 : ℚ)
    (hk1 : 0 ≤ k1) (hk : k1 < k2) (hatr : 0 < atr) :
    (computeZones sma20 atr k1 k2).deepAccum < (computeZones sma20 atr k1 k2).accum
    ∧ (computeZones sma20 atr k1 k2).accum ≤ sma20
    ∧ sma20 ≤ (computeZones sma20 atr k1 k2).distrib
    ∧ (computeZones sma20 atr k1 k2).distrib < (computeZones sma20 atr k1 k2).safeDistrib := by
  refine ⟨?_, ?_, ?_, ?_⟩ <;> simp only [computeZones] <;> nlinarith

theorem zones_invariant_witness :
    ((0 : ℚ) ≤ 1 ∧ (1 : ℚ) < 2 ∧ (0 : ℚ) < 2)
    ∧ ((computeZones 100 2 1 2).deepAccum < (computeZones 100 2 1 2).accum
      ∧ (computeZones 100 2 1 2).accum ≤ 100
      ∧ (100 : ℚ) ≤ (computeZones 100 2 1 2).distrib
      ∧ (computeZones 100 2 1 2).distrib < (computeZones 100 2 1 2).safeDistrib) :=
  ⟨⟨by norm_num, by norm_num, by norm_num⟩,
   zones_invariant 100 2 1 2 (by norm_num) (by norm_num) (by norm_num)⟩

/-- C9 (counterexample): the `web/pages/index.tsx` copy of
`resolveApiBase` is not a function of `NEXT_PUBLIC_API_URL` and the
hostname alone — with `NEXT_PUBLIC_API_URL` unset,
`NEXT_PUBLIC_API_BASE_URL` set and hostname `localhost` it returns the
base-URL value, while the claimed rule demands the local default. -/
theorem resolve_api_base_counterexample :
    resolveApiBaseIndex none (some "https://mico-site.onrender.com") (some "localhost")
        = "https://mico-site.onrender.com"
    ∧ claimResolveApiBase none (some "localhost") = "http://localhost:8000"
    ∧ ("https://mico-site.onrender.com" : String) ≠ "http://localhost:8000" := by
  refine ⟨by decide, by decide, by decide⟩

/-- C9 (amended): the `Signals.tsx` copy of `resolveApiBase` computes
exactly the claimed resolution rule; the `index.tsx` copy computes the
same rule applied to the effective environment value
`NEXT_PUBLIC_API_URL || NEXT_PUBLIC_API_BASE_URL`. -/
theorem resolve_api_base_characterization (envUrl envBaseUrl window : Option String) :
    resolveApiBaseSignals envUrl window = claimResolveApiBase envUrl window
    ∧ resolveApiBaseIndex envUrl envBaseUrl window
        = claimResolveApiBase (jsOrString envUrl envBaseUrl) window := by
  constructor
  · cases envUrl with
    | none => rfl
    | some v => simp [resolveApiBaseSignals, claimResolveApiBase, nonBlankEnv_eq_trim]
  · cases h : jsOrString envUrl envBaseUrl with
    | none => simp [resolveApiBaseIndex, claimResolveApiBase, h]
    | some v => simp [resolveApiBaseIndex, claimResolveApiBase, h, nonBlankEnv_eq_trim]

/-- C10 (counterexample): the logs reader in
`web/pages/strategies/[id].tsx` performs no shape normalization — for the
object body `{"value": []}` it renders the object itself instead of the
wrapper field's list demanded by the claim. (Additionally, the
strategies-list reader turns a JSON `null` body into a thrown, caught
error rather than an empty list.) -/
theorem list_readers_counterexample :
    strategyDetailLogs (Json.obj [("value", Json.arr [])])
        = Json.obj [("value", Json.arr [])]
    ∧ claimNormalize (Json.obj [("value", Json.arr [])]) "value" = Json.arr []
    ∧ Json.obj [("value", Json.arr [])] ≠ Json.arr []
    ∧ fetchStrategiesItems Json.null = Except.error () := by
  refine ⟨rfl, rfl, ?_, rfl⟩
  intro hcontra
  exact Json.noConfusion hcontra

/-- C10 (amended): the home-page strategies reader and the newer logs
reader normalize every JSON body by the claimed rule (array ↦ itself,
object ↦ truthy wrapper field `items`/`value` or `[]`, anything else ↦
`[]`); the strategies-index reader computes the same rule except that a
`null` body raises a caught TypeError; the older logs reader in
`web/pages/strategies/[id].tsx` assigns the parsed body unchanged. -/
theorem list_readers_characterization (d : Json) :
    fetchDataItems d = claimNormalize d "items"
    ∧ fetchLogsItems d = claimNormalize d "value"
    ∧ fetchStrategiesItems d
        = (if isNullJson d then Except.error () else Except.ok (claimNormalize d "items"))
    ∧ strategyDetailLogs d = d := by
  refine ⟨?_, ?_, ?_, ?_⟩ <;> cases d <;> rfl

end Heyanon
